import Mathlib

/-!
# Tagfs user-space management core: a shallow embedding

This file embeds the persistent data model and the operations of
`src/user/tagfs_lib.c` (log writer, bitmap allocator, log replayer,
file allocation, directory creation) as executable Lean definitions,
and proves properties of them.

Machine integers are modelled as `Nat`/`Int` (the C code never relies on
wrap-around in the embedded paths).  The fixed on-device `entries[]` array
of the log is modelled as a total function `Nat → tagfs_log_entry`.
Pointers to mmapped memory become explicit state passing; C functions
returning `int` error codes become functions returning `Int × state`.
Syscalls (`stat`, `open`, `mkdir`, `chown`, the ioctls) are modelled
against an ideal filesystem state and are assumed to succeed, which is
the environment behaviour the C code itself assumes on its success
paths.
-/

/-- Modelled from the spec: `TAGFS_ALLOC_UNIT` lives in a header that is not
under `src/`; the spec fixes the allocation unit to a 2 MiB huge page
(scenario 2: "1 GiB device with 2 MiB allocation unit"). -/
def TAGFS_ALLOC_UNIT : Nat := 2097152

/-- Modelled from the spec: superblock size constant from the missing header.
The spec only requires it to be a fixed size with `log_offset == SUPERBLOCK_SIZE`
in the reference layout; one allocation unit is used here. -/
def TAGFS_SUPERBLOCK_SIZE : Nat := 2097152

/-- Modelled from the spec: `log_offset == SUPERBLOCK_SIZE` in the reference
layout (spec section 6, on-device layout). -/
def TAGFS_LOG_OFFSET : Nat := TAGFS_SUPERBLOCK_SIZE

/-- Modelled from the spec: the compile-time log length constant from the
missing header; any fixed multiple of the allocation unit works, 8 MiB here. -/
def TAGFS_LOG_LEN : Nat := 8388608

/-- Modelled from the spec: the 64-bit magic sentinel of the log; only
equality with itself matters, the concrete value is arbitrary. -/
def TAGFS_LOG_MAGIC : Nat := 0x746167667324c065

/-- Extent type tag `TAGFS_EXT_SIMPLE` (every extent in the current format). -/
def TAGFS_EXT_SIMPLE : Nat := 1

/-- Hard-coded access flags stored by `tagfs_log_file_creation`. -/
def TAGFS_FC_ALL_HOSTS_RW : Nat := 2

/-- `struct tagfs_simple_extent`: a half-open byte range on the device. -/
structure tagfs_simple_extent where
  tagfs_extent_offset : Nat
  tagfs_extent_len : Nat
deriving DecidableEq

/-- `struct tagfs_log_extent`: a tagged extent as stored in a log entry. -/
structure tagfs_log_extent where
  tagfs_extent_type : Nat
  se : tagfs_simple_extent
deriving DecidableEq

/-- `struct tagfs_file_creation`: the FILE log-entry payload.  The fixed
C array `tagfs_ext_list[]` together with its count `tagfs_nextents` is
modelled as a list; `tagfs_nextents` is its length. -/
structure tagfs_file_creation where
  tagfs_fc_size : Nat
  tagfs_ext_list : List tagfs_log_extent
  tagfs_relpath : String
  fc_mode : Nat
  fc_uid : Nat
  fc_gid : Nat
  tagfs_fc_flags : Nat
deriving DecidableEq

/-- `nextents` of a FILE payload (the length of its extent list). -/
def tagfs_file_creation.tagfs_nextents (fc : tagfs_file_creation) : Nat :=
  fc.tagfs_ext_list.length

/-- `struct tagfs_mkdir`: the MKDIR log-entry payload. -/
structure tagfs_mkdir where
  tagfs_relpath : String
  fc_mode : Nat
  fc_uid : Nat
  fc_gid : Nat
deriving DecidableEq

/-- The discriminated union of log-entry payloads
(`tagfs_log_entry_type` plus the union member). `tagfs_access` also
covers unknown entry types, which the code treats like ACCESS. -/
inductive tagfs_log_entry_payload where
  | tagfs_fc (fc : tagfs_file_creation)
  | tagfs_md (md : tagfs_mkdir)
  | tagfs_access
deriving DecidableEq

/-- `struct tagfs_log_entry`: sequence number plus typed payload. -/
structure tagfs_log_entry where
  tagfs_log_entry_seqnum : Nat
  payload : tagfs_log_entry_payload
deriving DecidableEq

/-- `struct tagfs_log`.  The fixed `entries[]` array is a total function;
only indices below `tagfs_log_next_index` are meaningful. -/
structure tagfs_log where
  tagfs_log_magic : Nat
  tagfs_log_next_seqnum : Nat
  tagfs_log_next_index : Nat
  tagfs_log_last_index : Nat
  entries : Nat → tagfs_log_entry

/-- The valid prefix of the log: `entries[0] .. entries[next_index-1]`. -/
def logEntryList (logp : tagfs_log) : List tagfs_log_entry :=
  (List.range logp.tagfs_log_next_index).map logp.entries

/-- `tagfs_log_full`: the log is diagnosed full when
`next_index > last_index`. -/
def tagfs_log_full (logp : tagfs_log) : Bool :=
  decide (logp.tagfs_log_next_index > logp.tagfs_log_last_index)

/-- `tagfs_log_entry_fc_path_is_relative`: `strlen(relpath) >= 1` and the
first byte is not a slash. -/
def tagfs_log_entry_fc_path_is_relative (fc : tagfs_file_creation) : Bool :=
  match fc.tagfs_relpath.data with
  | [] => false
  | c :: _ => c != '/'

/-- `tagfs_log_entry_md_path_is_relative`: same test for MKDIR payloads. -/
def tagfs_log_entry_md_path_is_relative (md : tagfs_mkdir) : Bool :=
  match md.tagfs_relpath.data with
  | [] => false
  | c :: _ => c != '/'

/-- `tagfs_append_log`: refuse a bad magic (`-EINVAL = -22`); refuse when
`next_index >= last_index` (`-E2BIG = -7`, "log is full"); otherwise stamp
the entry's seqnum with `next_seqnum`, copy it into `entries[next_index]`
and advance both counters.  The C null-pointer checks have no counterpart
in the embedding. -/
def tagfs_append_log (logp : tagfs_log) (e : tagfs_log_entry) : Int × tagfs_log :=
  if logp.tagfs_log_magic ≠ TAGFS_LOG_MAGIC then (-22, logp)
  else if logp.tagfs_log_next_index ≥ logp.tagfs_log_last_index then (-7, logp)
  else
    (0, { logp with
            entries := fun i =>
              if i = logp.tagfs_log_next_index then
                { e with tagfs_log_entry_seqnum := logp.tagfs_log_next_seqnum }
              else logp.entries i,
            tagfs_log_next_seqnum := logp.tagfs_log_next_seqnum + 1,
            tagfs_log_next_index := logp.tagfs_log_next_index + 1 })

/-- Iterated `tagfs_append_log`, stopping at the first failure (the shape
of every caller loop that appends several entries). -/
def appendMany (logp : tagfs_log) (es : List tagfs_log_entry) : Int × tagfs_log :=
  match es with
  | [] => (0, logp)
  | e :: rest =>
    let r := tagfs_append_log logp e
    if r.1 = 0 then appendMany r.2 rest else r

/-- `tagfs_log_file_creation`: pre-check `tagfs_log_full` (`-ENOMEM = -12`),
build a FILE entry from the extent list and append it.  `strncpy`
truncation of the relpath is not modelled (paths are well under
`TAGFS_MAX_PATHLEN` in every embedded scenario). -/
def tagfs_log_file_creation (logp : tagfs_log) (ext_list : List tagfs_simple_extent)
    (relpath : String) (mode uid gid size : Nat) : Int × tagfs_log :=
  if tagfs_log_full logp then (-12, logp)
  else
    tagfs_append_log logp
      { tagfs_log_entry_seqnum := 0,
        payload := tagfs_log_entry_payload.tagfs_fc
          { tagfs_fc_size := size,
            tagfs_ext_list := ext_list.map (fun se =>
              { tagfs_extent_type := TAGFS_EXT_SIMPLE, se := se }),
            tagfs_relpath := relpath,
            fc_mode := mode,
            fc_uid := uid,
            fc_gid := gid,
            tagfs_fc_flags := TAGFS_FC_ALL_HOSTS_RW } }

/-! ## Bitmap primitives

The primitives live in `bitmap.h`, which is not under `src/`; they are
modelled from the spec ("Bit test/set/test-and-set over a byte array",
one bit per allocation unit).  A bitmap is a total function `Nat → Bool`. -/

/-- Modelled from the spec: `mu_bitmap_test` — test one bit. -/
def mu_bitmap_test (bitmap : Nat → Bool) (k : Nat) : Bool := bitmap k

/-- Modelled from the spec: `mse_bitmap_test32` — same test semantics,
32-bit word flavour. -/
def mse_bitmap_test32 (bitmap : Nat → Bool) (k : Nat) : Bool := bitmap k

/-- Modelled from the spec: `mu_bitmap_set` — set one bit. -/
def mu_bitmap_set (bitmap : Nat → Bool) (k : Nat) : Nat → Bool :=
  fun i => if i = k then true else bitmap i

/-- Modelled from the spec: `mse_bitmap_set32` — same set semantics. -/
def mse_bitmap_set32 (bitmap : Nat → Bool) (k : Nat) : Nat → Bool :=
  mu_bitmap_set bitmap k

/-- Modelled from the spec: `mu_bitmap_test_and_set` — set the bit, and
report whether it was newly set (`false` means the bit was already set,
which the C caller sees as return value 0). -/
def mu_bitmap_test_and_set (bitmap : Nat → Bool) (k : Nat) : Bool × (Nat → Bool) :=
  if bitmap k then (false, bitmap) else (true, mu_bitmap_set bitmap k)

/-- Modelled from the spec: `mu_bitmap_size` — the bitmap has one bit per
allocation unit, so its size is `npages` (spec §4.4: "Size is
⌈(device_size − SUPERBLOCK_SIZE − LOG_LEN) / ALLOC_UNIT⌉ bits"). -/
def mu_bitmap_size (npages : Nat) : Nat := npages

/-- `put_sb_log_into_bitmap`: mark bit 0 and then bits
`1 .. (TAGFS_LOG_OFFSET + TAGFS_LOG_LEN)/TAGFS_ALLOC_UNIT - 1` as
allocated (the superblock and the log). -/
def put_sb_log_into_bitmap (bitmap : Nat → Bool) : Nat → Bool :=
  (List.range' 1 ((TAGFS_LOG_OFFSET + TAGFS_LOG_LEN) / TAGFS_ALLOC_UNIT - 1)).foldl
    mu_bitmap_set (mu_bitmap_set bitmap 0)

/-- Accumulator threaded through `tagfs_build_bitmap`'s scan of the log
(the local variables `bitmap`, `errors`, `size_sum`, `alloc_sum`). -/
structure BuildAcc where
  bitmap : Nat → Bool
  errors : Nat
  size_sum : Nat
  alloc_sum : Nat

/-- One iteration of the innermost loop of `tagfs_build_bitmap`:
test-and-set page `k`; an already-set page counts one collision error and
is excluded from `alloc_sum`. -/
def build_bitmap_page (a : BuildAcc) (k : Nat) : BuildAcc :=
  let r := mu_bitmap_test_and_set a.bitmap k
  if r.1 then { a with bitmap := r.2, alloc_sum := a.alloc_sum + TAGFS_ALLOC_UNIT }
  else { a with errors := a.errors + 1 }

/-- Mark the page range of one extent:
pages `offset/UNIT .. offset/UNIT + ⌈len/UNIT⌉ - 1`. -/
def build_bitmap_ext (a : BuildAcc) (x : tagfs_log_extent) : BuildAcc :=
  let page_num := x.se.tagfs_extent_offset / TAGFS_ALLOC_UNIT
  let np := (x.se.tagfs_extent_len + TAGFS_ALLOC_UNIT - 1) / TAGFS_ALLOC_UNIT
  ((List.range np).map (fun k => page_num + k)).foldl build_bitmap_page a

/-- Process one log entry: FILE entries add their size to `size_sum` and
mark all their extents; MKDIR and ACCESS entries use no space. -/
def build_bitmap_entry (a : BuildAcc) (le : tagfs_log_entry) : BuildAcc :=
  match le.payload with
  | tagfs_log_entry_payload.tagfs_fc fc =>
    fc.tagfs_ext_list.foldl build_bitmap_ext { a with size_sum := a.size_sum + fc.tagfs_fc_size }
  | tagfs_log_entry_payload.tagfs_md _ => a
  | tagfs_log_entry_payload.tagfs_access => a

/-- The outputs of `tagfs_build_bitmap`. -/
structure tagfs_bitmap_build where
  bitmap : Nat → Bool
  bitmap_size : Nat
  errors : Nat
  size_total : Nat
  alloc_total : Nat

/-- `tagfs_build_bitmap`: zero the bitmap, reserve superblock+log pages,
then walk the valid log prefix marking every FILE extent page with
test-and-set semantics. -/
def tagfs_build_bitmap (logp : tagfs_log) (bitmap_size_in : Nat) : tagfs_bitmap_build :=
  let npages := (bitmap_size_in - TAGFS_SUPERBLOCK_SIZE - TAGFS_LOG_LEN) / TAGFS_ALLOC_UNIT
  let a0 : BuildAcc :=
    { bitmap := put_sb_log_into_bitmap (fun _ => false), errors := 0, size_sum := 0, alloc_sum := 0 }
  let a := (logEntryList logp).foldl build_bitmap_entry a0
  { bitmap := a.bitmap, bitmap_size := mu_bitmap_size npages,
    errors := a.errors, size_total := a.size_sum, alloc_total := a.alloc_sum }

/-! ## Contiguous allocation -/

/-- The `alloc_bits` computation of `bitmap_alloc_contiguous`:
`(size + TAGFS_ALLOC_UNIT - 1) / TAGFS_ALLOC_UNIT`. -/
def allocBitsFor (size : Nat) : Nat :=
  (size + TAGFS_ALLOC_UNIT - 1) / TAGFS_ALLOC_UNIT

/-- The scan loop of `bitmap_alloc_contiguous`, index `i` running to
`nbits`: skip set bits; at a clear bit, fail if fewer than `ab` bits
remain; succeed if the `ab`-bit window starting here is all clear;
otherwise advance.  `fuel` bounds the recursion and is at least
`nbits - i` at every call site. -/
def allocScan (bm : Nat → Bool) (nbits ab : Nat) : Nat → Nat → Option Nat
  | _, 0 => none
  | i, fuel + 1 =>
    if i < nbits then
      if mu_bitmap_test bm i then allocScan bm nbits ab (i + 1) fuel
      else if nbits - i < ab then none
      else if (List.range ab).all (fun j => !(mse_bitmap_test32 bm (i + j))) then some i
      else allocScan bm nbits ab (i + 1) fuel
    else none

/-- `bitmap_alloc_contiguous`: first-fit scan from bit 0; on success set
the window and return `start_bit * TAGFS_ALLOC_UNIT`, on failure return
the 0 sentinel and leave the bitmap unchanged. -/
def bitmap_alloc_contiguous (bm : Nat → Bool) (nbits size : Nat) : Nat × (Nat → Bool) :=
  match allocScan bm nbits (allocBitsFor size) 0 nbits with
  | some i =>
    (i * TAGFS_ALLOC_UNIT,
     fun k => if i ≤ k ∧ k < i + allocBitsFor size then true else bm k)
  | none => (0, bm)

/-- `tagfs_alloc_bypath`: refuse a zero size; rebuild the bitmap from the
log and run the contiguous allocator.  The superblock lookup that yields
the dax device size is modelled by the `daxdevsize` argument (a validated
superblock is assumed, as on the C success path). -/
def tagfs_alloc_bypath (logp : tagfs_log) (daxdevsize : Nat) (size : Nat) : Int :=
  if size = 0 then -1
  else
    let b := tagfs_build_bitmap logp daxdevsize
    Int.ofNat (bitmap_alloc_contiguous b.bitmap b.bitmap_size size).1

/-- Modelled from the spec: `round_size_to_alloc_unit` is defined in a
header that is not under `src/`; the spec says "Round the requested size
up to the allocation unit for the persisted extent length". -/
def round_size_to_alloc_unit (size : Nat) : Nat :=
  ((size + TAGFS_ALLOC_UNIT - 1) / TAGFS_ALLOC_UNIT) * TAGFS_ALLOC_UNIT

/-- `tagfs_file_alloc` (allocation-and-logging core): allocate by path,
treat only a negative return as failure (`-ENOMEM = -12`), persist a
single extent whose length is the rounded size while the log entry keeps
the requested `size`, then issue the map-create ioctl (modelled as
succeeding).  Path resolution and log mapping are environment and are
assumed to succeed. -/
def tagfs_file_alloc (logp : tagfs_log) (daxdevsize : Nat) (relpath : String)
    (mode uid gid size : Nat) : Int × tagfs_log :=
  let offset := tagfs_alloc_bypath logp daxdevsize size
  if offset < 0 then (-12, logp)
  else
    let ext : tagfs_simple_extent :=
      { tagfs_extent_offset := offset.toNat,
        tagfs_extent_len := round_size_to_alloc_unit size }
    let r := tagfs_log_file_creation logp [ext] relpath mode uid gid size
    if r.1 ≠ 0 then r else (0, r.2)

/-! ## Filesystem model and log replay

The replayer's side effects (`stat`, file creation, `mkdir`, the
map-create ioctl, diagnostics) are modelled against an ideal filesystem:
a list of existing paths with their kinds, newest first, plus an event
trace.  `realpath` of `<mpt>/<relpath>` is the concatenation (the mount
point and log relpaths are assumed canonical, as the C code assumes
after `realpath`). -/

/-- Kind of an existing filesystem object. -/
inductive FsKind where
  | file
  | dir
deriving DecidableEq

/-- The ideal filesystem: existing paths and their kinds. -/
abbrev FsState := List (String × FsKind)

/-- `stat`, returning the kind of an existing path. -/
def fsLookup (fs : FsState) (p : String) : Option FsKind :=
  match fs with
  | [] => none
  | (q, k) :: rest => if q = p then some k else fsLookup rest p

/-- `stat` success test. -/
def fsExists (fs : FsState) (p : String) : Bool :=
  (fsLookup fs p).isSome

/-- Observable actions and diagnostics of one replay run. -/
inductive LogplayEvent where
  | reportedLogEmpty
  | createdFile (path : String)
  | mapCreateIoctl (path : String) (size : Nat) (exts : List tagfs_simple_extent)
  | createdDir (path : String)
  | rejectedFilePath (relpath : String)
  | rejectedZeroOffset (relpath : String)
  | fileAlreadyExists (path : String)
  | rejectedDirPath (relpath : String)
  | dirAlreadyExists (path : String)
  | fileWhereDirExpected (path : String)
  | dirCreateFailed (relpath : String)
  | invalidEntry
deriving DecidableEq

/-- Events that create a filesystem object or issue the map-create ioctl. -/
def isCreationEvent : LogplayEvent → Bool
  | LogplayEvent.createdFile _ => true
  | LogplayEvent.mapCreateIoctl _ _ _ => true
  | LogplayEvent.createdDir _ => true
  | _ => false

/-- `tagfs_dir_create`: `mkdir <mpt>/<rpath>` (fails if the target
exists), then if both uid and gid are non-zero run `chown` (modelled as
succeeding) and return `-1`; return `0` otherwise.  The `return -1`
after the chown block is unconditional in the C source. -/
def tagfs_dir_create (fs : FsState) (mpt rpath : String) (mode uid gid : Nat) :
    Int × FsState :=
  if fsExists fs (mpt ++ "/" ++ rpath) then (-1, fs)
  else
    let fs2 : FsState := (mpt ++ "/" ++ rpath, FsKind.dir) :: fs
    if uid ≠ 0 ∧ gid ≠ 0 then (-1, fs2) else (0, fs2)

/-- The skip condition of a FILE entry in `tagfs_logplay`: path not
relative, or some extent with offset 0 (`skip_file > 0`). -/
def fileSkipCond (fc : tagfs_file_creation) : Bool :=
  !(tagfs_log_entry_fc_path_is_relative fc) ||
    fc.tagfs_ext_list.any (fun x => x.se.tagfs_extent_offset == 0)

/-- Replay one log entry against the filesystem (the body of the loop in
`tagfs_logplay`).  `tagfs_file_create` inside the FILE branch is modelled
as succeeding (create the file, `chown` it); its failure path only
retries-and-skips and is unreachable in the ideal environment. -/
def tagfs_logplay_entry (mpt : String) (dry_run : Bool) (fs : FsState)
    (le : tagfs_log_entry) : FsState × List LogplayEvent :=
  match le.payload with
  | tagfs_log_entry_payload.tagfs_fc fc =>
    if fileSkipCond fc then
      (fs,
       (if tagfs_log_entry_fc_path_is_relative fc then []
        else [LogplayEvent.rejectedFilePath fc.tagfs_relpath]) ++
       (fc.tagfs_ext_list.filter (fun x => x.se.tagfs_extent_offset == 0)).map
         (fun _ => LogplayEvent.rejectedZeroOffset fc.tagfs_relpath))
    else if dry_run then (fs, [])
    else if fsExists fs (mpt ++ "/" ++ fc.tagfs_relpath) then
      (fs, [LogplayEvent.fileAlreadyExists (mpt ++ "/" ++ fc.tagfs_relpath)])
    else
      ((mpt ++ "/" ++ fc.tagfs_relpath, FsKind.file) :: fs,
       [LogplayEvent.createdFile (mpt ++ "/" ++ fc.tagfs_relpath),
        LogplayEvent.mapCreateIoctl (mpt ++ "/" ++ fc.tagfs_relpath)
          fc.tagfs_fc_size (fc.tagfs_ext_list.map (fun x => x.se))])
  | tagfs_log_entry_payload.tagfs_md md =>
    if !(tagfs_log_entry_md_path_is_relative md) then
      (fs, [LogplayEvent.rejectedDirPath md.tagfs_relpath])
    else if dry_run then (fs, [])
    else
      match fsLookup fs (mpt ++ "/" ++ md.tagfs_relpath) with
      | some FsKind.dir => (fs, [LogplayEvent.dirAlreadyExists (mpt ++ "/" ++ md.tagfs_relpath)])
      | some FsKind.file => (fs, [LogplayEvent.fileWhereDirExpected (mpt ++ "/" ++ md.tagfs_relpath)])
      | none =>
        match tagfs_dir_create fs mpt md.tagfs_relpath md.fc_mode md.fc_uid md.fc_gid with
        | (rc, fs2) =>
          (fs2,
           if rc = 0 then [LogplayEvent.createdDir (mpt ++ "/" ++ md.tagfs_relpath)]
           else [LogplayEvent.createdDir (mpt ++ "/" ++ md.tagfs_relpath),
                 LogplayEvent.dirCreateFailed md.tagfs_relpath])
  | tagfs_log_entry_payload.tagfs_access => (fs, [LogplayEvent.invalidEntry])

/-- The replay loop over the valid log prefix, in index order. -/
def tagfs_logplay_loop (mpt : String) (dry_run : Bool) :
    FsState → List tagfs_log_entry → FsState × List LogplayEvent
  | fs, [] => (fs, [])
  | fs, le :: rest =>
    match tagfs_logplay_entry mpt dry_run fs le with
    | (fs1, ev1) =>
      match tagfs_logplay_loop mpt dry_run fs1 rest with
      | (fs2, ev2) => (fs2, ev1 ++ ev2)

/-- `tagfs_logplay`: refuse a "full" log (diagnosed as empty, return -1),
otherwise replay every valid entry and return 0. -/
def tagfs_logplay (logp : tagfs_log) (mpt : String) (dry_run : Bool) (fs : FsState) :
    Int × FsState × List LogplayEvent :=
  if tagfs_log_full logp then (-1, fs, [LogplayEvent.reportedLogEmpty])
  else
    match tagfs_logplay_loop mpt dry_run fs (logEntryList logp) with
    | (fs2, evs) => (0, fs2, evs)

/-! ## Specification-side definitions

These follow the words of the spec and of the claims; the theorems
compare them with the definitions translated from the source. -/

/-- A window of `ab` consecutive clear bits starting at `s`, lying inside
the `nbits`-bit bitmap — the fit notion of the spec's first-fit
description. -/
def fitsAt (bm : Nat → Bool) (nbits ab s : Nat) : Prop :=
  s + ab ≤ nbits ∧ ∀ j, j < ab → bm (s + j) = false

instance fitsAt.instDecidable (bm : Nat → Bool) (nbits ab s : Nat) :
    Decidable (fitsAt bm nbits ab s) := by
  unfold fitsAt
  exact instDecidableAnd

/-- Whether a relpath begins with a slash (an absolute path in a log
entry, which replay must reject). -/
def beginsWithSlash (s : String) : Bool :=
  match s.data with
  | [] => false
  | c :: _ => c == '/'

/-- One extent's length rounded up to the allocation unit. -/
def extent_rounded_len (x : tagfs_log_extent) : Nat :=
  ((x.se.tagfs_extent_len + TAGFS_ALLOC_UNIT - 1) / TAGFS_ALLOC_UNIT) * TAGFS_ALLOC_UNIT

/-- Rounded allocation demanded by one log entry (0 unless FILE). -/
def entry_rounded_alloc (le : tagfs_log_entry) : Nat :=
  match le.payload with
  | tagfs_log_entry_payload.tagfs_fc fc => (fc.tagfs_ext_list.map extent_rounded_len).sum
  | _ => 0

/-- The spec-side accumulator: the sum over all FILE entries of the log's
valid prefix of their extent lengths rounded up to the allocation unit. -/
def log_rounded_alloc (logp : tagfs_log) : Nat :=
  ((logEntryList logp).map entry_rounded_alloc).sum

/-- `entry_type` observer: true exactly on FILE entries. -/
def entry_is_file (le : tagfs_log_entry) : Bool :=
  match le.payload with
  | tagfs_log_entry_payload.tagfs_fc _ => true
  | _ => false

/-- The extent offsets recorded in a FILE entry (empty for other types). -/
def entry_extent_offsets (le : tagfs_log_entry) : List Nat :=
  match le.payload with
  | tagfs_log_entry_payload.tagfs_fc fc =>
    fc.tagfs_ext_list.map (fun x => x.se.tagfs_extent_offset)
  | _ => []

/-- The per-entry creation targets of replay: the canonical path a
non-skipped FILE or MKDIR entry materializes. -/
def entryTargets (mpt : String) (le : tagfs_log_entry) : List String :=
  match le.payload with
  | tagfs_log_entry_payload.tagfs_fc fc =>
    if fileSkipCond fc then [] else [mpt ++ "/" ++ fc.tagfs_relpath]
  | tagfs_log_entry_payload.tagfs_md md =>
    if tagfs_log_entry_md_path_is_relative md then [mpt ++ "/" ++ md.tagfs_relpath] else []
  | tagfs_log_entry_payload.tagfs_access => []

/-! ## Log writer lemmas -/

/-- Success of `tagfs_append_log` is exactly: valid magic and
`next_index < last_index`. -/
theorem tagfs_append_log_rc (logp : tagfs_log) (e : tagfs_log_entry) :
    (tagfs_append_log logp e).1 = 0 ↔
      logp.tagfs_log_magic = TAGFS_LOG_MAGIC ∧
      logp.tagfs_log_next_index < logp.tagfs_log_last_index := by
  unfold tagfs_append_log
  split_ifs with h1 h2
  · simp [h1]
  · have h1e := not_ne_iff.mp h1
    simp [h1e]
    omega
  · have h1e := not_ne_iff.mp h1
    simp [h1e]
    omega

/-- Field-wise description of a successful `tagfs_append_log`: both
counters advance by one, slot `next_index` receives the entry stamped
with `next_seqnum`, and every other slot is untouched. -/
theorem tagfs_append_log_ok (logp : tagfs_log) (e : tagfs_log_entry)
    (h : (tagfs_append_log logp e).1 = 0) :
    (tagfs_append_log logp e).2.tagfs_log_next_index = logp.tagfs_log_next_index + 1 ∧
    (tagfs_append_log logp e).2.tagfs_log_next_seqnum = logp.tagfs_log_next_seqnum + 1 ∧
    (tagfs_append_log logp e).2.entries logp.tagfs_log_next_index =
      { e with tagfs_log_entry_seqnum := logp.tagfs_log_next_seqnum } ∧
    ∀ i, i ≠ logp.tagfs_log_next_index →
      (tagfs_append_log logp e).2.entries i = logp.entries i := by
  unfold tagfs_append_log at h ⊢
  split_ifs at h ⊢ with h1 h2
  · simp at h
  · simp at h
  · refine ⟨rfl, rfl, by simp, ?_⟩
    intro i hi
    simp [hi]

/-- `appendMany` bookkeeping: starting from a log whose `next_index` and
`next_seqnum` agree, a fully successful run advances both by the number
of entries, leaves earlier slots untouched, and stamps the new slots with
seqnums equal to their indices. -/
theorem appendMany_spec : ∀ (es : List tagfs_log_entry) (logp : tagfs_log) (n : Nat),
    logp.tagfs_log_next_index = n → logp.tagfs_log_next_seqnum = n →
    (appendMany logp es).1 = 0 →
    (appendMany logp es).2.tagfs_log_next_index = n + es.length ∧
    (appendMany logp es).2.tagfs_log_next_seqnum = n + es.length ∧
    (∀ i, i < n → (appendMany logp es).2.entries i = logp.entries i) ∧
    (∀ i, n ≤ i → i < n + es.length →
      ((appendMany logp es).2.entries i).tagfs_log_entry_seqnum = i) := by
  intro es
  induction es with
  | nil =>
    intro logp n hidx hseq _
    refine ⟨by simpa [appendMany] using hidx, by simpa [appendMany] using hseq, ?_, ?_⟩
    · intro i _; rfl
    · intro i h1 h2
      exfalso
      simp only [List.length_nil, Nat.add_zero] at h2
      omega
  | cons e rest ih =>
    intro logp n hidx hseq hok
    by_cases hrc : (tagfs_append_log logp e).1 = 0
    · have hf := tagfs_append_log_ok logp e hrc
      have hrun : appendMany logp (e :: rest) = appendMany (tagfs_append_log logp e).2 rest := by
        simp [appendMany, hrc]
      rw [hrun] at hok ⊢
      have hidx2 : (tagfs_append_log logp e).2.tagfs_log_next_index = n + 1 := by
        rw [hf.1, hidx]
      have hseq2 : (tagfs_append_log logp e).2.tagfs_log_next_seqnum = n + 1 := by
        rw [hf.2.1, hseq]
      obtain ⟨h1, h2, h3, h4⟩ := ih (tagfs_append_log logp e).2 (n + 1) hidx2 hseq2 hok
      refine ⟨?_, ?_, ?_, ?_⟩
      · rw [h1]; simp only [List.length_cons]; omega
      · rw [h2]; simp only [List.length_cons]; omega
      · intro i hi
        rw [h3 i (by omega), hf.2.2.2 i (by omega)]
      · intro i hge hlt
        simp only [List.length_cons] at hlt
        rcases Nat.lt_or_ge i (n + 1) with hlow | hhigh
        · have hi : i = n := by omega
          subst hi
          rw [h3 i (by omega)]
          have hset := hf.2.2.1
          rw [hidx] at hset
          rw [hset]
          show logp.tagfs_log_next_seqnum = i
          omega
        · exact h4 i hhigh (by omega)
    · exfalso
      have hrun : appendMany logp (e :: rest) = tagfs_append_log logp e := by
        simp [appendMany, hrc]
      rw [hrun] at hok
      exact hrc hok

/-! ## Claim C1: when does the log accept an append -/

/-- A neutral probe entry for exercising the log writer. -/
def c1Probe : tagfs_log_entry :=
  { tagfs_log_entry_seqnum := 0, payload := tagfs_log_entry_payload.tagfs_access }

/-- A log with a valid magic, `next_index = last_index = 3`. -/
def c1FullLog : tagfs_log :=
  { tagfs_log_magic := TAGFS_LOG_MAGIC, tagfs_log_next_seqnum := 3,
    tagfs_log_next_index := 3, tagfs_log_last_index := 3, entries := fun _ => c1Probe }

/-- A log with a valid magic, `next_index = 1 < last_index = 3`. -/
def c1OpenLog : tagfs_log :=
  { tagfs_log_magic := TAGFS_LOG_MAGIC, tagfs_log_next_seqnum := 1,
    tagfs_log_next_index := 1, tagfs_log_last_index := 3, entries := fun _ => c1Probe }

/-- An empty log with a valid magic and `last_index = 3`. -/
def c1EmptyLog3 : tagfs_log :=
  { tagfs_log_magic := TAGFS_LOG_MAGIC, tagfs_log_next_seqnum := 0,
    tagfs_log_next_index := 0, tagfs_log_last_index := 3, entries := fun _ => c1Probe }

/-- C1, counterexample to the claim as stated: `c1FullLog` has a valid
magic and `next_index ≤ last_index` (so the claim says the append
succeeds and only the next one fails), yet `tagfs_append_log` already
fails on it: the source refuses appends as soon as
`next_index >= last_index`, not only beyond `last_index`. -/
theorem append_log_claim_counterexample :
    c1FullLog.tagfs_log_magic = TAGFS_LOG_MAGIC ∧
    c1FullLog.tagfs_log_next_index ≤ c1FullLog.tagfs_log_last_index ∧
    (tagfs_append_log c1FullLog c1Probe).1 ≠ 0 := by
  refine ⟨rfl, by decide, by decide⟩

/-- C1, amended: for every log with a valid magic, `tagfs_append_log`
succeeds exactly while `next_index < last_index`; in particular a log
with `last_index = 3` accepts 3 appends (indices 0..2), after which
`next_index = last_index = 3` and the 4th append is the first to fail,
with the log-full error `-E2BIG`. -/
theorem append_log_succeeds_iff_below_last :
    (∀ (logp : tagfs_log) (e : tagfs_log_entry),
      logp.tagfs_log_magic = TAGFS_LOG_MAGIC →
      ((tagfs_append_log logp e).1 = 0 ↔
        logp.tagfs_log_next_index < logp.tagfs_log_last_index)) ∧
    ((appendMany c1EmptyLog3 [c1Probe, c1Probe, c1Probe]).1 = 0 ∧
     (appendMany c1EmptyLog3 [c1Probe, c1Probe, c1Probe]).2.tagfs_log_next_index = 3 ∧
     (tagfs_append_log (appendMany c1EmptyLog3 [c1Probe, c1Probe, c1Probe]).2 c1Probe).1 = -7) := by
  constructor
  · intro logp e hm
    rw [tagfs_append_log_rc]
    constructor
    · exact fun h => h.2
    · exact fun h => ⟨hm, h⟩
  · refine ⟨by decide, by decide, by decide⟩

/-- C1 witness: on a concrete valid log with one free slot below
`last_index`, the amended criterion yields a successful append. -/
theorem append_log_succeeds_iff_below_last_witness :
    (tagfs_append_log c1OpenLog c1Probe).1 = 0 :=
  (append_log_succeeds_iff_below_last.1 c1OpenLog c1Probe rfl).mpr (by decide)

/-! ## Claim C3: a successful append stamps, copies and advances -/

/-- An empty log for the N-append scenario (`last_index = 10`). -/
def c3Log : tagfs_log :=
  { tagfs_log_magic := TAGFS_LOG_MAGIC, tagfs_log_next_seqnum := 0,
    tagfs_log_next_index := 0, tagfs_log_last_index := 10,
    entries := fun _ => { tagfs_log_entry_seqnum := 0,
                          payload := tagfs_log_entry_payload.tagfs_access } }

/-- A probe entry whose junk seqnum (99) must be overwritten by stamping. -/
def c3Probe : tagfs_log_entry :=
  { tagfs_log_entry_seqnum := 99, payload := tagfs_log_entry_payload.tagfs_access }

/-- C3: a successful append stamps the entry's seqnum with `next_seqnum`,
copies it into `entries[next_index]` and increments both counters; hence
after N successful appends from an empty log `next_index = N`,
`next_seqnum = N` and the stored entries carry seqnums `0 .. N-1` in
index order. -/
theorem append_log_stamps_and_advances :
    (∀ (logp : tagfs_log) (e : tagfs_log_entry), (tagfs_append_log logp e).1 = 0 →
      (tagfs_append_log logp e).2.entries logp.tagfs_log_next_index =
        { e with tagfs_log_entry_seqnum := logp.tagfs_log_next_seqnum } ∧
      (tagfs_append_log logp e).2.tagfs_log_next_seqnum = logp.tagfs_log_next_seqnum + 1 ∧
      (tagfs_append_log logp e).2.tagfs_log_next_index = logp.tagfs_log_next_index + 1) ∧
    (∀ (es : List tagfs_log_entry) (logp : tagfs_log),
      logp.tagfs_log_next_index = 0 → logp.tagfs_log_next_seqnum = 0 →
      (appendMany logp es).1 = 0 →
      (appendMany logp es).2.tagfs_log_next_index = es.length ∧
      (appendMany logp es).2.tagfs_log_next_seqnum = es.length ∧
      ∀ i, i < es.length →
        ((appendMany logp es).2.entries i).tagfs_log_entry_seqnum = i) := by
  constructor
  · intro logp e h
    have hf := tagfs_append_log_ok logp e h
    exact ⟨hf.2.2.1, hf.2.1, hf.1⟩
  · intro es logp h0 hs hok
    have h := appendMany_spec es logp 0 h0 hs hok
    exact ⟨by simpa using h.1, by simpa using h.2.1,
           fun i hi => h.2.2.2 i (by omega) (by omega)⟩

/-- C3 witness: two successful appends on a concrete empty log leave
`next_index = next_seqnum = 2` and the slots stamped 0 and 1 (the probe's
junk seqnum 99 is overwritten). -/
theorem append_log_stamps_and_advances_witness :
    (appendMany c3Log [c3Probe, c3Probe]).1 = 0 ∧
    (appendMany c3Log [c3Probe, c3Probe]).2.tagfs_log_next_index = 2 ∧
    (appendMany c3Log [c3Probe, c3Probe]).2.tagfs_log_next_seqnum = 2 ∧
    ((appendMany c3Log [c3Probe, c3Probe]).2.entries 0).tagfs_log_entry_seqnum = 0 ∧
    ((appendMany c3Log [c3Probe, c3Probe]).2.entries 1).tagfs_log_entry_seqnum = 1 := by
  have h := append_log_stamps_and_advances.2 [c3Probe, c3Probe] c3Log rfl rfl (by decide)
  exact ⟨by decide, h.1, h.2.1, h.2.2 0 (by decide), h.2.2 1 (by decide)⟩

/-! ## Claim C4: bitmap building and the alloc_total accumulator -/

/-- Marking one page adds one allocation unit to
`alloc_sum + UNIT * errors` (the unit goes to `alloc_sum` when the page
was clear and to `errors` when it was already set) and never touches
`size_sum`. -/
theorem build_bitmap_page_inv (a : BuildAcc) (k : Nat) :
    (build_bitmap_page a k).alloc_sum + TAGFS_ALLOC_UNIT * (build_bitmap_page a k).errors =
      a.alloc_sum + TAGFS_ALLOC_UNIT * a.errors + TAGFS_ALLOC_UNIT ∧
    (build_bitmap_page a k).size_sum = a.size_sum := by
  cases hb : a.bitmap k with
  | true =>
    constructor
    · simp [build_bitmap_page, mu_bitmap_test_and_set, hb, Nat.mul_succ]
      omega
    · simp [build_bitmap_page, mu_bitmap_test_and_set, hb]
  | false =>
    constructor
    · simp [build_bitmap_page, mu_bitmap_test_and_set, hb]
      omega
    · simp [build_bitmap_page, mu_bitmap_test_and_set, hb]

/-- Folding `build_bitmap_page` over a page list adds one unit per page. -/
theorem build_bitmap_pages_inv (ks : List Nat) : ∀ a : BuildAcc,
    ((ks.foldl build_bitmap_page a).alloc_sum +
      TAGFS_ALLOC_UNIT * (ks.foldl build_bitmap_page a).errors =
      a.alloc_sum + TAGFS_ALLOC_UNIT * a.errors + TAGFS_ALLOC_UNIT * ks.length) ∧
    (ks.foldl build_bitmap_page a).size_sum = a.size_sum := by
  induction ks with
  | nil => intro a; simp
  | cons k rest ih =>
    intro a
    simp only [List.foldl_cons, List.length_cons]
    obtain ⟨h1, h2⟩ := ih (build_bitmap_page a k)
    obtain ⟨g1, g2⟩ := build_bitmap_page_inv a k
    refine ⟨?_, by rw [h2, g2]⟩
    rw [h1, g1, Nat.mul_succ]
    omega

/-- Marking one extent adds exactly its rounded length to
`alloc_sum + UNIT * errors`. -/
theorem build_bitmap_ext_inv (a : BuildAcc) (x : tagfs_log_extent) :
    ((build_bitmap_ext a x).alloc_sum + TAGFS_ALLOC_UNIT * (build_bitmap_ext a x).errors =
      a.alloc_sum + TAGFS_ALLOC_UNIT * a.errors + extent_rounded_len x) ∧
    (build_bitmap_ext a x).size_sum = a.size_sum := by
  simp only [build_bitmap_ext]
  obtain ⟨h1, h2⟩ := build_bitmap_pages_inv
    ((List.range ((x.se.tagfs_extent_len + TAGFS_ALLOC_UNIT - 1) / TAGFS_ALLOC_UNIT)).map
      (fun k => x.se.tagfs_extent_offset / TAGFS_ALLOC_UNIT + k)) a
  refine ⟨?_, h2⟩
  rw [h1]
  simp only [List.length_map, List.length_range, extent_rounded_len]
  ring

/-- Folding over an extent list adds the sum of rounded lengths. -/
theorem build_bitmap_exts_inv (xs : List tagfs_log_extent) : ∀ a : BuildAcc,
    ((xs.foldl build_bitmap_ext a).alloc_sum +
      TAGFS_ALLOC_UNIT * (xs.foldl build_bitmap_ext a).errors =
      a.alloc_sum + TAGFS_ALLOC_UNIT * a.errors + (xs.map extent_rounded_len).sum) ∧
    (xs.foldl build_bitmap_ext a).size_sum = a.size_sum := by
  induction xs with
  | nil => intro a; simp
  | cons x rest ih =>
    intro a
    simp only [List.foldl_cons, List.map_cons, List.sum_cons]
    obtain ⟨h1, h2⟩ := ih (build_bitmap_ext a x)
    obtain ⟨g1, g2⟩ := build_bitmap_ext_inv a x
    exact ⟨by rw [h1, g1]; omega, by rw [h2, g2]⟩

/-- Processing one log entry adds its rounded allocation demand. -/
theorem build_bitmap_entry_inv (a : BuildAcc) (le : tagfs_log_entry) :
    (build_bitmap_entry a le).alloc_sum + TAGFS_ALLOC_UNIT * (build_bitmap_entry a le).errors =
      a.alloc_sum + TAGFS_ALLOC_UNIT * a.errors + entry_rounded_alloc le := by
  obtain ⟨sq, pl⟩ := le
  cases pl with
  | tagfs_fc fc =>
    simp only [build_bitmap_entry, entry_rounded_alloc]
    obtain ⟨h1, _⟩ := build_bitmap_exts_inv fc.tagfs_ext_list
      { a with size_sum := a.size_sum + fc.tagfs_fc_size }
    rw [h1]
  | tagfs_md md => simp [build_bitmap_entry, entry_rounded_alloc]
  | tagfs_access => simp [build_bitmap_entry, entry_rounded_alloc]

/-- Folding over the valid log prefix adds the total rounded demand. -/
theorem build_bitmap_entries_inv (les : List tagfs_log_entry) : ∀ a : BuildAcc,
    (les.foldl build_bitmap_entry a).alloc_sum +
      TAGFS_ALLOC_UNIT * (les.foldl build_bitmap_entry a).errors =
      a.alloc_sum + TAGFS_ALLOC_UNIT * a.errors + (les.map entry_rounded_alloc).sum := by
  induction les with
  | nil => intro a; simp
  | cons le rest ih =>
    intro a
    simp only [List.foldl_cons, List.map_cons, List.sum_cons]
    have h1 := ih (build_bitmap_entry a le)
    have g1 := build_bitmap_entry_inv a le
    rw [h1, g1]
    omega

/-- C4: each marked unit contributes one allocation unit either to
`alloc_total` (newly set) or to the per-unit collision counter `errors`
(already set), so `alloc_total + UNIT * errors` always equals the sum
over all FILE entries of their extent lengths rounded up to the
allocation unit; in particular on a log with zero collisions
`alloc_total` equals that rounded sum. -/
theorem build_bitmap_alloc_total_rounded :
    ∀ (logp : tagfs_log) (bitmap_size_in : Nat),
      ((tagfs_build_bitmap logp bitmap_size_in).alloc_total +
        TAGFS_ALLOC_UNIT * (tagfs_build_bitmap logp bitmap_size_in).errors =
        log_rounded_alloc logp) ∧
      ((tagfs_build_bitmap logp bitmap_size_in).errors = 0 →
        (tagfs_build_bitmap logp bitmap_size_in).alloc_total = log_rounded_alloc logp) := by
  intro logp s
  have key : (tagfs_build_bitmap logp s).alloc_total +
      TAGFS_ALLOC_UNIT * (tagfs_build_bitmap logp s).errors = log_rounded_alloc logp := by
    simp only [tagfs_build_bitmap, log_rounded_alloc]
    have h := build_bitmap_entries_inv (logEntryList logp)
      { bitmap := put_sb_log_into_bitmap (fun _ => false), errors := 0, size_sum := 0, alloc_sum := 0 }
    rw [h]
    simp
  refine ⟨key, fun he => ?_⟩
  have h2 := key
  rw [he] at h2
  simpa using h2

/-- A FILE entry with one extent at offset 10 MiB and length 3 MiB. -/
def c4Fc : tagfs_file_creation :=
  { tagfs_fc_size := 3145728,
    tagfs_ext_list := [{ tagfs_extent_type := 1,
                         se := { tagfs_extent_offset := 10485760, tagfs_extent_len := 3145728 } }],
    tagfs_relpath := "f1", fc_mode := 420, fc_uid := 0, fc_gid := 0, tagfs_fc_flags := 2 }

/-- A one-entry log holding `c4Fc`. -/
def c4Log : tagfs_log :=
  { tagfs_log_magic := TAGFS_LOG_MAGIC, tagfs_log_next_seqnum := 1,
    tagfs_log_next_index := 1, tagfs_log_last_index := 10,
    entries := fun _ => { tagfs_log_entry_seqnum := 0,
                          payload := tagfs_log_entry_payload.tagfs_fc c4Fc } }

/-- C4 witness: on a concrete collision-free log (one 3 MiB file beyond
the reserved region, on a 32 MiB device) `alloc_total` equals the rounded
sum, 4 MiB. -/
theorem build_bitmap_alloc_total_rounded_witness :
    (tagfs_build_bitmap c4Log 33554432).errors = 0 ∧
    (tagfs_build_bitmap c4Log 33554432).alloc_total = log_rounded_alloc c4Log ∧
    log_rounded_alloc c4Log = 4194304 := by
  refine ⟨by decide, (build_bitmap_alloc_total_rounded c4Log 33554432).2 (by decide), by decide⟩

/-! ## Claim C5: first-fit contiguous allocation -/

/-- A positive request needs at least one allocation unit. -/
theorem allocBitsFor_pos (size : Nat) (h : 0 < size) : 1 ≤ allocBitsFor size := by
  unfold allocBitsFor TAGFS_ALLOC_UNIT
  omega

/-- Soundness of the scan loop: a returned start is at or after the scan
position, fits, and is the least fitting start at or after it. -/
theorem allocScan_some (bm : Nat → Bool) (nbits ab : Nat) (hab : 1 ≤ ab) :
    ∀ (fuel i s : Nat), nbits ≤ i + fuel →
      allocScan bm nbits ab i fuel = some s →
      i ≤ s ∧ fitsAt bm nbits ab s ∧ ∀ t, i ≤ t → t < s → ¬ fitsAt bm nbits ab t := by
  intro fuel
  induction fuel with
  | zero =>
    intro i s hle h
    simp [allocScan] at h
  | succ fuel ih =>
    intro i s hle h
    simp only [allocScan] at h
    by_cases hi : i < nbits
    · rw [if_pos hi] at h
      by_cases hbm : mu_bitmap_test bm i = true
      · rw [if_pos hbm] at h
        obtain ⟨h1, h2, h3⟩ := ih (i + 1) s (by omega) h
        refine ⟨by omega, h2, ?_⟩
        intro t ht1 ht2 hfit
        rcases Nat.eq_or_lt_of_le ht1 with rfl | hgt
        · have hz := hfit.2 0 (by omega)
          simp only [Nat.add_zero] at hz
          have hbt : bm i = true := hbm
          rw [hbt] at hz
          exact absurd hz (by decide)
        · exact h3 t (by omega) ht2 hfit
      · rw [if_neg hbm] at h
        by_cases hrem : nbits - i < ab
        · rw [if_pos hrem] at h
          simp at h
        · rw [if_neg hrem] at h
          by_cases hwin : (List.range ab).all (fun j => !(mse_bitmap_test32 bm (i + j))) = true
          · rw [if_pos hwin] at h
            have hs : i = s := by simpa using h
            subst hs
            refine ⟨Nat.le_refl _, ⟨by omega, ?_⟩, ?_⟩
            · intro j hj
              simp only [List.all_eq_true, List.mem_range, Bool.not_eq_true',
                mse_bitmap_test32] at hwin
              exact hwin j hj
            · intro t ht1 ht2
              exact absurd ht2 (by omega)
          · rw [if_neg hwin] at h
            obtain ⟨h1, h2, h3⟩ := ih (i + 1) s (by omega) h
            refine ⟨by omega, h2, ?_⟩
            intro t ht1 ht2 hfit
            rcases Nat.eq_or_lt_of_le ht1 with rfl | hgt
            · apply hwin
              simp only [List.all_eq_true, List.mem_range, Bool.not_eq_true', mse_bitmap_test32]
              intro j hj
              exact hfit.2 j hj
            · exact h3 t (by omega) ht2 hfit
    · rw [if_neg hi] at h
      simp at h

/-- Completeness of the scan loop: a failed scan means no start at or
after the scan position fits. -/
theorem allocScan_none (bm : Nat → Bool) (nbits ab : Nat) (hab : 1 ≤ ab) :
    ∀ (fuel i : Nat), nbits ≤ i + fuel →
      allocScan bm nbits ab i fuel = none →
      ∀ t, i ≤ t → ¬ fitsAt bm nbits ab t := by
  intro fuel
  induction fuel with
  | zero =>
    intro i hle _ t ht hfit
    have h1 := hfit.1
    omega
  | succ fuel ih =>
    intro i hle h
    simp only [allocScan] at h
    by_cases hi : i < nbits
    · rw [if_pos hi] at h
      by_cases hbm : mu_bitmap_test bm i = true
      · rw [if_pos hbm] at h
        intro t ht hfit
        rcases Nat.eq_or_lt_of_le ht with rfl | hgt
        · have hz := hfit.2 0 (by omega)
          simp only [Nat.add_zero] at hz
          have hbt : bm i = true := hbm
          rw [hbt] at hz
          exact absurd hz (by decide)
        · exact ih (i + 1) (by omega) h t (by omega) hfit
      · rw [if_neg hbm] at h
        by_cases hrem : nbits - i < ab
        · intro t ht hfit
          have h1 := hfit.1
          omega
        · rw [if_neg hrem] at h
          by_cases hwin : (List.range ab).all (fun j => !(mse_bitmap_test32 bm (i + j))) = true
          · rw [if_pos hwin] at h
            simp at h
          · rw [if_neg hwin] at h
            intro t ht hfit
            rcases Nat.eq_or_lt_of_le ht with rfl | hgt
            · apply hwin
              simp only [List.all_eq_true, List.mem_range, Bool.not_eq_true', mse_bitmap_test32]
              intro j hj
              exact hfit.2 j hj
            · exact ih (i + 1) (by omega) h t (by omega) hfit
    · intro t ht hfit
      have h1 := hfit.1
      omega

/-- Free bits 3 and 4 of a 5-bit bitmap (bits 0..2 set): the remaining
free contiguous space is exactly two allocation units. -/
def c5Bm : Nat → Bool := fun k => decide (k < 3)

/-- A 2-bit bitmap with bit 0 set and bit 1 clear. -/
def c5CexBm : Nat → Bool := fun k => decide (k = 0)

/-- C5, counterexample to the claim as stated ("for every bitmap and
request size"): for a request of size 0 the smallest index at which
`⌈size/ALLOC_UNIT⌉ = 0` consecutive bits are all zero is 0, so the claim
predicts a return of `0 * ALLOC_UNIT = 0`, but `bitmap_alloc_contiguous`
returns the first clear bit times the unit (here bit 1, 2 MiB). -/
theorem alloc_contiguous_claim_counterexample :
    fitsAt c5CexBm 2 (allocBitsFor 0) 0 ∧
    (∀ t, t < 0 → ¬ fitsAt c5CexBm 2 (allocBitsFor 0) t) ∧
    (bitmap_alloc_contiguous c5CexBm 2 0).1 ≠ 0 * TAGFS_ALLOC_UNIT := by
  refine ⟨by decide, ?_, by decide⟩
  intro t ht
  exact absurd ht (Nat.not_lt_zero t)

/-- C5, amended with a positive request size: `bitmap_alloc_contiguous`
returns `start_bit * ALLOC_UNIT` where `start_bit` is the smallest bit
index at which `⌈size/ALLOC_UNIT⌉` consecutive bits are all zero (setting
exactly those bits), and returns the 0 sentinel leaving the bitmap
unchanged when no such window exists; on a concrete bitmap, allocating
exactly the remaining free contiguous space (2 units) succeeds and
allocating one more unit fails with 0. -/
theorem alloc_contiguous_first_fit :
    (∀ (bm : Nat → Bool) (nbits size s : Nat), 0 < size →
      fitsAt bm nbits (allocBitsFor size) s →
      (∀ t, t < s → ¬ fitsAt bm nbits (allocBitsFor size) t) →
      (bitmap_alloc_contiguous bm nbits size).1 = s * TAGFS_ALLOC_UNIT ∧
      ∀ k, (bitmap_alloc_contiguous bm nbits size).2 k =
        (bm k || decide (s ≤ k ∧ k < s + allocBitsFor size))) ∧
    (∀ (bm : Nat → Bool) (nbits size : Nat), 0 < size →
      (∀ t, ¬ fitsAt bm nbits (allocBitsFor size) t) →
      bitmap_alloc_contiguous bm nbits size = (0, bm)) ∧
    ((bitmap_alloc_contiguous c5Bm 5 (2 * TAGFS_ALLOC_UNIT)).1 = 3 * TAGFS_ALLOC_UNIT ∧
     (bitmap_alloc_contiguous c5Bm 5 (3 * TAGFS_ALLOC_UNIT)).1 = 0) := by
  refine ⟨?_, ?_, by decide, by decide⟩
  · intro bm nbits size s hpos hfit hmin
    have hab := allocBitsFor_pos size hpos
    cases hscan : allocScan bm nbits (allocBitsFor size) 0 nbits with
    | none =>
      exact absurd hfit
        (allocScan_none bm nbits (allocBitsFor size) hab nbits 0 (by omega) hscan s (by omega))
    | some s2 =>
      obtain ⟨-, hfit2, hmin2⟩ :=
        allocScan_some bm nbits (allocBitsFor size) hab nbits 0 s2 (by omega) hscan
      have hss : s2 = s := by
        rcases Nat.lt_trichotomy s2 s with hlt | heq | hgt
        · exact absurd hfit2 (hmin s2 hlt)
        · exact heq
        · exact absurd hfit (hmin2 s (by omega) hgt)
      subst hss
      have hres : bitmap_alloc_contiguous bm nbits size =
          (s2 * TAGFS_ALLOC_UNIT,
           fun k => if s2 ≤ k ∧ k < s2 + allocBitsFor size then true else bm k) := by
        unfold bitmap_alloc_contiguous
        rw [hscan]
      rw [hres]
      refine ⟨rfl, ?_⟩
      intro k
      by_cases hk : s2 ≤ k ∧ k < s2 + allocBitsFor size
      · simp [hk]
      · simp [hk]
  · intro bm nbits size hpos hnofit
    have hab := allocBitsFor_pos size hpos
    cases hscan : allocScan bm nbits (allocBitsFor size) 0 nbits with
    | none =>
      unfold bitmap_alloc_contiguous
      rw [hscan]
    | some s2 =>
      obtain ⟨-, hfit2, -⟩ :=
        allocScan_some bm nbits (allocBitsFor size) hab nbits 0 s2 (by omega) hscan
      exact absurd hfit2 (hnofit s2)

/-- C5 witness: on the concrete 5-bit bitmap with bits 0..2 set, the
least fitting start for a two-unit request is bit 3, and the amended
first-fit law yields offset `3 * ALLOC_UNIT`. -/
theorem alloc_contiguous_first_fit_witness :
    (bitmap_alloc_contiguous c5Bm 5 (2 * TAGFS_ALLOC_UNIT)).1 = 3 * TAGFS_ALLOC_UNIT :=
  (alloc_contiguous_first_fit.1 c5Bm 5 (2 * TAGFS_ALLOC_UNIT) 3
    (by decide) (by decide) (by decide)).1

/-! ## Claim C2: the allocator's 0 sentinel in tagfs_file_alloc -/

/-- The extent lengths recorded in a FILE entry (empty for other types). -/
def entry_extent_lens (le : tagfs_log_entry) : List Nat :=
  match le.payload with
  | tagfs_log_entry_payload.tagfs_fc fc =>
    fc.tagfs_ext_list.map (fun x => x.se.tagfs_extent_len)
  | _ => []

/-- The logged file size of a FILE entry (empty for other types). -/
def entry_file_sizes (le : tagfs_log_entry) : List Nat :=
  match le.payload with
  | tagfs_log_entry_payload.tagfs_fc fc => [fc.tagfs_fc_size]
  | _ => []

/-- An empty valid log for the exhausted-device scenario. -/
def c2Log : tagfs_log :=
  { tagfs_log_magic := TAGFS_LOG_MAGIC, tagfs_log_next_seqnum := 0,
    tagfs_log_next_index := 0, tagfs_log_last_index := 10,
    entries := fun _ => { tagfs_log_entry_seqnum := 0,
                          payload := tagfs_log_entry_payload.tagfs_access } }

/-- C2, evaluated at the failing input: on a 14 MiB device every
allocatable unit is covered by the superblock+log reservation, so the
contiguous allocator finds no fit and `tagfs_alloc_bypath` returns the
0 sentinel; but `tagfs_file_alloc` only checks `offset < 0`, so instead
of failing with `-ENOMEM` it returns success and appends a FILE log
entry whose single extent has offset 0 — an entry that
`tagfs_logplay` itself later rejects as erroneous. -/
theorem file_alloc_zero_sentinel_code_bug :
    tagfs_alloc_bypath c2Log 14680064 2097152 = 0 ∧
    (tagfs_file_alloc c2Log 14680064 "lostfile" 420 0 0 2097152).1 = 0 ∧
    (tagfs_file_alloc c2Log 14680064 "lostfile" 420 0 0 2097152).2.tagfs_log_next_index = 1 ∧
    entry_is_file ((tagfs_file_alloc c2Log 14680064 "lostfile" 420 0 0 2097152).2.entries 0)
      = true ∧
    entry_extent_offsets ((tagfs_file_alloc c2Log 14680064 "lostfile" 420 0 0 2097152).2.entries 0)
      = [0] := by
  refine ⟨by decide, by decide, by decide, by decide, by decide⟩

/-! ## Claim C6: rounded extent length, unrounded logged size -/

/-- C6: whenever `tagfs_file_alloc` succeeds, the log gains one FILE
entry whose single persisted extent has length
`round_size_to_alloc_unit size` while the `file_size` stored in the same
entry is the unrounded requested `size`. -/
theorem file_alloc_rounds_extent_keeps_size :
    ∀ (logp : tagfs_log) (daxdevsize : Nat) (relpath : String) (mode uid gid size : Nat),
      (tagfs_file_alloc logp daxdevsize relpath mode uid gid size).1 = 0 →
      ∃ fc : tagfs_file_creation,
        (tagfs_file_alloc logp daxdevsize relpath mode uid gid size).2.tagfs_log_next_index =
          logp.tagfs_log_next_index + 1 ∧
        ((tagfs_file_alloc logp daxdevsize relpath mode uid gid size).2.entries
            logp.tagfs_log_next_index).payload = tagfs_log_entry_payload.tagfs_fc fc ∧
        fc.tagfs_fc_size = size ∧
        fc.tagfs_ext_list.map (fun x => x.se.tagfs_extent_len) =
          [round_size_to_alloc_unit size] := by
  intro logp dax relpath mode uid gid size h
  simp only [tagfs_file_alloc] at h ⊢
  split_ifs at h ⊢ with hoff hrc
  · simp at h
  · exact absurd h hrc
  · rw [not_not] at hrc
    simp only [tagfs_log_file_creation] at hrc ⊢
    split_ifs at hrc ⊢ with hfull
    · simp at hrc
    · have hf := tagfs_append_log_ok logp _ hrc
      refine ⟨⟨size,
               [⟨TAGFS_EXT_SIMPLE,
                 ⟨(tagfs_alloc_bypath logp dax size).toNat, round_size_to_alloc_unit size⟩⟩],
               relpath, mode, uid, gid, TAGFS_FC_ALL_HOSTS_RW⟩, ?_, ?_, rfl, rfl⟩
      · exact hf.1
      · exact (congrArg tagfs_log_entry.payload hf.2.2.1).trans rfl

/-- An empty valid log for the 3 MiB allocation scenario. -/
def c6Log : tagfs_log :=
  { tagfs_log_magic := TAGFS_LOG_MAGIC, tagfs_log_next_seqnum := 0,
    tagfs_log_next_index := 0, tagfs_log_last_index := 10,
    entries := fun _ => { tagfs_log_entry_seqnum := 0,
                          payload := tagfs_log_entry_payload.tagfs_access } }

/-- C6 witness: a successful 3 MiB allocation on a 32 MiB device logs one
FILE entry whose extent length is rounded to 4 MiB while the logged file
size stays 3 MiB. -/
theorem file_alloc_rounds_extent_keeps_size_witness :
    (tagfs_file_alloc c6Log 33554432 "f3" 420 0 0 3145728).1 = 0 ∧
    (tagfs_file_alloc c6Log 33554432 "f3" 420 0 0 3145728).2.tagfs_log_next_index = 1 ∧
    entry_extent_lens ((tagfs_file_alloc c6Log 33554432 "f3" 420 0 0 3145728).2.entries 0)
      = [4194304] ∧
    entry_file_sizes ((tagfs_file_alloc c6Log 33554432 "f3" 420 0 0 3145728).2.entries 0)
      = [3145728] := by
  have h := file_alloc_rounds_extent_keeps_size c6Log 33554432 "f3" 420 0 0 3145728 (by decide)
  obtain ⟨fc, h1, -, -, -⟩ := h
  exact ⟨by decide, h1, by decide, by decide⟩

/-! ## Claim C7: replay skips bad FILE entries non-fatally -/

/-- A relpath that begins with a slash fails the is-relative test. -/
theorem is_relative_false_of_slash (fc : tagfs_file_creation)
    (h : beginsWithSlash fc.tagfs_relpath = true) :
    tagfs_log_entry_fc_path_is_relative fc = false := by
  unfold beginsWithSlash at h
  unfold tagfs_log_entry_fc_path_is_relative
  cases hd : fc.tagfs_relpath.data with
  | nil => rw [hd] at h
  | cons c cs =>
    rw [hd] at h
    simp at h
    subst h
    rfl

/-- The diagnostics emitted for a skipped FILE entry contain no creation
action. -/
theorem skip_events_not_creation (fc : tagfs_file_creation) :
    ∀ ev ∈ ((if tagfs_log_entry_fc_path_is_relative fc then []
        else [LogplayEvent.rejectedFilePath fc.tagfs_relpath]) ++
        (fc.tagfs_ext_list.filter (fun x => x.se.tagfs_extent_offset == 0)).map
          (fun _ => LogplayEvent.rejectedZeroOffset fc.tagfs_relpath)),
      isCreationEvent ev = false := by
  intro ev hev
  rcases List.mem_append.mp hev with hm | hm
  · by_cases hr : tagfs_log_entry_fc_path_is_relative fc = true
    · rw [if_pos hr] at hm
      simp at hm
    · rw [if_neg hr] at hm
      simp at hm
      subst hm
      rfl
  · obtain ⟨x, -, rfl⟩ := List.mem_map.mp hm
    rfl

/-- A FILE entry whose path begins with a slash or that has a zero-offset
extent satisfies the replay skip condition. -/
theorem fileSkipCond_of_bad (fc : tagfs_file_creation)
    (h : beginsWithSlash fc.tagfs_relpath = true ∨
      fc.tagfs_ext_list.any (fun x => x.se.tagfs_extent_offset == 0) = true) :
    fileSkipCond fc = true := by
  unfold fileSkipCond
  rcases h with hs | ha
  · rw [is_relative_false_of_slash fc hs]
    rfl
  · rw [ha]
    simp

/-- C7: a FILE entry whose relative path begins with a slash or that has
any extent with offset 0 is skipped non-fatally: the filesystem state is
unchanged, no creation action (file create or map-create ioctl) is
emitted for it, and whenever replay runs at all (the log is not "full")
it still returns 0. -/
theorem logplay_skips_invalid_file_entries :
    (∀ (mpt : String) (dry_run : Bool) (fs : FsState) (sq : Nat) (fc : tagfs_file_creation),
      (beginsWithSlash fc.tagfs_relpath = true ∨
        fc.tagfs_ext_list.any (fun x => x.se.tagfs_extent_offset == 0) = true) →
      (tagfs_logplay_entry mpt dry_run fs
        { tagfs_log_entry_seqnum := sq, payload := tagfs_log_entry_payload.tagfs_fc fc }).1 = fs ∧
      ∀ ev ∈ (tagfs_logplay_entry mpt dry_run fs
          { tagfs_log_entry_seqnum := sq, payload := tagfs_log_entry_payload.tagfs_fc fc }).2,
        isCreationEvent ev = false) ∧
    (∀ (logp : tagfs_log) (mpt : String) (dry_run : Bool) (fs : FsState),
      tagfs_log_full logp = false → (tagfs_logplay logp mpt dry_run fs).1 = 0) := by
  constructor
  · intro mpt dry fs sq fc h
    have hskip := fileSkipCond_of_bad fc h
    simp only [tagfs_logplay_entry]
    rw [if_pos hskip]
    exact ⟨rfl, skip_events_not_creation fc⟩
  · intro logp mpt dry fs hfull
    unfold tagfs_logplay
    rw [if_neg (by simp [hfull])]

/-- A FILE payload with an absolute path ("/abs"). -/
def c7Fc : tagfs_file_creation :=
  { tagfs_fc_size := 100,
    tagfs_ext_list := [{ tagfs_extent_type := 1,
                         se := { tagfs_extent_offset := 4194304, tagfs_extent_len := 2097152 } }],
    tagfs_relpath := "/abs", fc_mode := 420, fc_uid := 0, fc_gid := 0, tagfs_fc_flags := 2 }

/-- C7 witness: replaying the absolute-path FILE entry on an empty
filesystem leaves it empty and emits no creation action. -/
theorem logplay_skips_invalid_file_entries_witness :
    (tagfs_logplay_entry "m" false []
      { tagfs_log_entry_seqnum := 0, payload := tagfs_log_entry_payload.tagfs_fc c7Fc }).1 = [] ∧
    ((tagfs_logplay_entry "m" false []
      { tagfs_log_entry_seqnum := 0, payload := tagfs_log_entry_payload.tagfs_fc c7Fc }).2).all
        (fun ev => !(isCreationEvent ev)) = true := by
  have h := logplay_skips_invalid_file_entries.1 "m" false [] 0 c7Fc (Or.inl (by decide))
  exact ⟨h.1, by decide⟩

/-! ## Claim C8: replay is idempotent -/

/-- A path visible in `fs` stays visible after anything is prepended. -/
theorem fsLookup_append_left (pre fs : FsState) (p : String)
    (h : (fsLookup fs p).isSome = true) : (fsLookup (pre ++ fs) p).isSome = true := by
  induction pre with
  | nil => simpa using h
  | cons x rest ih =>
    obtain ⟨q, k⟩ := x
    simp only [List.cons_append, fsLookup]
    split_ifs with hq
    · simp
    · exact ih

/-- `fsExists` is monotone under prepending newly created objects. -/
theorem fsExists_append_left (pre fs : FsState) (p : String)
    (h : fsExists fs p = true) : fsExists (pre ++ fs) p = true :=
  fsLookup_append_left pre fs p h

/-- A just-created object exists. -/
theorem fsExists_cons_self (fs : FsState) (p : String) (k : FsKind) :
    fsExists ((p, k) :: fs) p = true := by
  simp [fsExists, fsLookup]

/-- When the target does not exist, `tagfs_dir_create` creates it
(whatever its return code). -/
theorem tagfs_dir_create_snd (fs : FsState) (mpt rpath : String) (mode uid gid : Nat)
    (h : fsExists fs (mpt ++ "/" ++ rpath) = false) :
    (tagfs_dir_create fs mpt rpath mode uid gid).2 =
      (mpt ++ "/" ++ rpath, FsKind.dir) :: fs := by
  unfold tagfs_dir_create
  rw [if_neg (by simp [h])]
  split_ifs <;> rfl

/-- Replaying one entry only ever prepends new objects to the
filesystem. -/
theorem logplay_entry_extends (mpt : String) (fs : FsState) (le : tagfs_log_entry) :
    ∃ pre, (tagfs_logplay_entry mpt false fs le).1 = pre ++ fs := by
  obtain ⟨sq, pl⟩ := le
  cases pl with
  | tagfs_fc fc =>
    simp only [tagfs_logplay_entry]
    by_cases h1 : fileSkipCond fc = true
    · rw [if_pos h1]
      exact ⟨[], rfl⟩
    · rw [if_neg h1, if_neg (by decide : ¬((false : Bool) = true))]
      by_cases h3 : fsExists fs (mpt ++ "/" ++ fc.tagfs_relpath) = true
      · rw [if_pos h3]
        exact ⟨[], rfl⟩
      · rw [if_neg h3]
        exact ⟨[(mpt ++ "/" ++ fc.tagfs_relpath, FsKind.file)], rfl⟩
  | tagfs_md md =>
    simp only [tagfs_logplay_entry]
    by_cases h1 : (!(tagfs_log_entry_md_path_is_relative md)) = true
    · rw [if_pos h1]
      exact ⟨[], rfl⟩
    · rw [if_neg h1, if_neg (by decide : ¬((false : Bool) = true))]
      cases hl : fsLookup fs (mpt ++ "/" ++ md.tagfs_relpath) with
      | some k =>
        cases k with
        | file => exact ⟨[], rfl⟩
        | dir => exact ⟨[], rfl⟩
      | none =>
        have hne : fsExists fs (mpt ++ "/" ++ md.tagfs_relpath) = false := by
          simp [fsExists, hl]
        exact ⟨[(mpt ++ "/" ++ md.tagfs_relpath, FsKind.dir)],
               tagfs_dir_create_snd fs mpt md.tagfs_relpath md.fc_mode md.fc_uid md.fc_gid hne⟩
  | tagfs_access =>
    exact ⟨[], rfl⟩

/-- After replaying one entry, its creation target (if any) exists. -/
theorem logplay_entry_target (mpt : String) (fs : FsState) (le : tagfs_log_entry) :
    ∀ p ∈ entryTargets mpt le, fsExists ((tagfs_logplay_entry mpt false fs le).1) p = true := by
  obtain ⟨sq, pl⟩ := le
  cases pl with
  | tagfs_fc fc =>
    intro p hp
    simp only [entryTargets] at hp
    by_cases hskip : fileSkipCond fc = true
    · rw [if_pos hskip] at hp
      simp at hp
    · rw [if_neg hskip] at hp
      simp at hp
      subst hp
      simp only [tagfs_logplay_entry]
      rw [if_neg hskip, if_neg (by decide : ¬((false : Bool) = true))]
      by_cases hex : fsExists fs (mpt ++ "/" ++ fc.tagfs_relpath) = true
      · rw [if_pos hex]
        exact hex
      · rw [if_neg hex]
        exact fsExists_cons_self fs (mpt ++ "/" ++ fc.tagfs_relpath) FsKind.file
  | tagfs_md md =>
    intro p hp
    simp only [entryTargets] at hp
    by_cases hrel : tagfs_log_entry_md_path_is_relative md = true
    · rw [if_pos hrel] at hp
      simp at hp
      subst hp
      simp only [tagfs_logplay_entry]
      rw [if_neg (by simp [hrel]), if_neg (by decide : ¬((false : Bool) = true))]
      cases hl : fsLookup fs (mpt ++ "/" ++ md.tagfs_relpath) with
      | some k =>
        cases k with
        | file => simp [fsExists, hl]
        | dir => simp [fsExists, hl]
      | none =>
        have hne : fsExists fs (mpt ++ "/" ++ md.tagfs_relpath) = false := by
          simp [fsExists, hl]
        rw [tagfs_dir_create_snd fs mpt md.tagfs_relpath md.fc_mode md.fc_uid md.fc_gid hne]
        exact fsExists_cons_self fs (mpt ++ "/" ++ md.tagfs_relpath) FsKind.dir
    · rw [if_neg hrel] at hp
      simp at hp
  | tagfs_access =>
    intro p hp
    simp [entryTargets] at hp

/-- When every target of an entry already exists, replaying it is a
no-op that emits only reports. -/
theorem logplay_entry_idem (mpt : String) (fs : FsState) (le : tagfs_log_entry)
    (h : ∀ p ∈ entryTargets mpt le, fsExists fs p = true) :
    (tagfs_logplay_entry mpt false fs le).1 = fs ∧
    ∀ ev ∈ (tagfs_logplay_entry mpt false fs le).2, isCreationEvent ev = false := by
  obtain ⟨sq, pl⟩ := le
  cases pl with
  | tagfs_fc fc =>
    simp only [tagfs_logplay_entry]
    by_cases hskip : fileSkipCond fc = true
    · rw [if_pos hskip]
      exact ⟨rfl, skip_events_not_creation fc⟩
    · rw [if_neg hskip, if_neg (by decide : ¬((false : Bool) = true))]
      have hex : fsExists fs (mpt ++ "/" ++ fc.tagfs_relpath) = true := by
        apply h
        simp only [entryTargets]
        rw [if_neg hskip]
        simp
      rw [if_pos hex]
      refine ⟨rfl, ?_⟩
      intro ev hev
      simp at hev
      subst hev
      rfl
  | tagfs_md md =>
    simp only [tagfs_logplay_entry]
    by_cases hrel : tagfs_log_entry_md_path_is_relative md = true
    · rw [if_neg (by simp [hrel]), if_neg (by decide : ¬((false : Bool) = true))]
      have hex : fsExists fs (mpt ++ "/" ++ md.tagfs_relpath) = true := by
        apply h
        simp only [entryTargets]
        rw [if_pos hrel]
        simp
      have hl : (fsLookup fs (mpt ++ "/" ++ md.tagfs_relpath)).isSome = true := hex
      cases hk : fsLookup fs (mpt ++ "/" ++ md.tagfs_relpath) with
      | none => rw [hk] at hl; simp at hl
      | some k =>
        cases k with
        | file =>
          refine ⟨rfl, ?_⟩
          intro ev hev
          simp at hev
          subst hev
          rfl
        | dir =>
          refine ⟨rfl, ?_⟩
          intro ev hev
          simp at hev
          subst hev
          rfl
    · rw [if_pos (by simp [Bool.not_eq_true] at hrel; simp [hrel])]
      refine ⟨rfl, ?_⟩
      intro ev hev
      simp at hev
      subst hev
      rfl
  | tagfs_access =>
    refine ⟨rfl, ?_⟩
    intro ev hev
    simp only [tagfs_logplay_entry] at hev
    simp at hev
    subst hev
    rfl

/-- The replay loop only ever prepends new objects. -/
theorem logplay_loop_extends (mpt : String) :
    ∀ (es : List tagfs_log_entry) (fs : FsState),
      ∃ pre, (tagfs_logplay_loop mpt false fs es).1 = pre ++ fs := by
  intro es
  induction es with
  | nil => intro fs; exact ⟨[], rfl⟩
  | cons le rest ih =>
    intro fs
    obtain ⟨p1, h1⟩ := logplay_entry_extends mpt fs le
    obtain ⟨p2, h2⟩ := ih ((tagfs_logplay_entry mpt false fs le).1)
    refine ⟨p2 ++ p1, ?_⟩
    show (tagfs_logplay_loop mpt false ((tagfs_logplay_entry mpt false fs le).1) rest).1 =
      (p2 ++ p1) ++ fs
    rw [h2, h1, List.append_assoc]

/-- After a full replay pass, the target of every processed entry
exists. -/
theorem logplay_loop_targets (mpt : String) :
    ∀ (es : List tagfs_log_entry) (fs : FsState) (le : tagfs_log_entry), le ∈ es →
      ∀ p ∈ entryTargets mpt le,
        fsExists ((tagfs_logplay_loop mpt false fs es).1) p = true := by
  intro es
  induction es with
  | nil =>
    intro fs le hle
    simp at hle
  | cons e rest ih =>
    intro fs le hle p hp
    rcases List.mem_cons.mp hle with rfl | hmem
    · have h1 := logplay_entry_target mpt fs le p hp
      obtain ⟨pre, hpre⟩ :=
        logplay_loop_extends mpt rest ((tagfs_logplay_entry mpt false fs le).1)
      show fsExists ((tagfs_logplay_loop mpt false
          ((tagfs_logplay_entry mpt false fs le).1) rest).1) p = true
      rw [hpre]
      exact fsExists_append_left pre _ p h1
    · show fsExists ((tagfs_logplay_loop mpt false
        ((tagfs_logplay_entry mpt false fs e).1) rest).1) p = true
      exact ih ((tagfs_logplay_entry mpt false fs e).1) le hmem p hp

/-- When every target of every entry already exists, a replay pass
leaves the filesystem untouched and emits only reports. -/
theorem logplay_loop_idem (mpt : String) :
    ∀ (es : List tagfs_log_entry) (fs : FsState),
      (∀ le ∈ es, ∀ p ∈ entryTargets mpt le, fsExists fs p = true) →
      (tagfs_logplay_loop mpt false fs es).1 = fs ∧
      ∀ ev ∈ (tagfs_logplay_loop mpt false fs es).2, isCreationEvent ev = false := by
  intro es
  induction es with
  | nil =>
    intro fs _
    refine ⟨rfl, ?_⟩
    intro ev hev
    simp [tagfs_logplay_loop] at hev
  | cons e rest ih =>
    intro fs h
    obtain ⟨hfs, hev1⟩ := logplay_entry_idem mpt fs e (h e (by simp))
    obtain ⟨hfs2, hev2⟩ := ih fs (fun le hle => h le (by simp [hle]))
    constructor
    · show (tagfs_logplay_loop mpt false ((tagfs_logplay_entry mpt false fs e).1) rest).1 = fs
      rw [hfs]
      exact hfs2
    · intro ev hev
      have hev' : ev ∈ (tagfs_logplay_entry mpt false fs e).2 ++
          (tagfs_logplay_loop mpt false ((tagfs_logplay_entry mpt false fs e).1) rest).2 := hev
      rcases List.mem_append.mp hev' with hm | hm
      · exact hev1 ev hm
      · rw [hfs] at hm
        exact hev2 ev hm

/-- On a log that is not "full", `tagfs_logplay` returns 0 and the
looped state and trace. -/
theorem tagfs_logplay_not_full (logp : tagfs_log) (mpt : String) (dry_run : Bool)
    (fs : FsState) (hfull : tagfs_log_full logp = false) :
    tagfs_logplay logp mpt dry_run fs =
      (0, (tagfs_logplay_loop mpt dry_run fs (logEntryList logp)).1,
          (tagfs_logplay_loop mpt dry_run fs (logEntryList logp)).2) := by
  unfold tagfs_logplay
  rw [if_neg (by simp [hfull])]

/-- C8: replay is idempotent — whenever replay runs (the log is not
"full"), a first pass returns 0, and a second pass over the resulting
filesystem also returns 0, changes nothing, and emits only reports (no
file creation, no map-create ioctl, no mkdir). -/
theorem logplay_idempotent :
    ∀ (logp : tagfs_log) (mpt : String) (fs : FsState),
      tagfs_log_full logp = false →
      (tagfs_logplay logp mpt false fs).1 = 0 ∧
      (tagfs_logplay logp mpt false ((tagfs_logplay logp mpt false fs).2.1)).1 = 0 ∧
      (tagfs_logplay logp mpt false ((tagfs_logplay logp mpt false fs).2.1)).2.1 =
        (tagfs_logplay logp mpt false fs).2.1 ∧
      ∀ ev ∈ (tagfs_logplay logp mpt false ((tagfs_logplay logp mpt false fs).2.1)).2.2,
        isCreationEvent ev = false := by
  intro logp mpt fs hfull
  have e1 := tagfs_logplay_not_full logp mpt false fs hfull
  have e2 := tagfs_logplay_not_full logp mpt false
    ((tagfs_logplay_loop mpt false fs (logEntryList logp)).1) hfull
  have htargets : ∀ le ∈ logEntryList logp, ∀ p ∈ entryTargets mpt le,
      fsExists ((tagfs_logplay_loop mpt false fs (logEntryList logp)).1) p = true :=
    fun le hle p hp => logplay_loop_targets mpt (logEntryList logp) fs le hle p hp
  obtain ⟨hfs2, hev2⟩ := logplay_loop_idem mpt (logEntryList logp)
    ((tagfs_logplay_loop mpt false fs (logEntryList logp)).1) htargets
  rw [e1]
  dsimp only
  rw [e2]
  dsimp only
  exact ⟨rfl, rfl, hfs2, hev2⟩

/-- A FILE payload creating "a" at offset 10 MiB. -/
def c8FileFc : tagfs_file_creation :=
  { tagfs_fc_size := 100,
    tagfs_ext_list := [{ tagfs_extent_type := 1,
                         se := { tagfs_extent_offset := 10485760, tagfs_extent_len := 2097152 } }],
    tagfs_relpath := "a", fc_mode := 420, fc_uid := 0, fc_gid := 0, tagfs_fc_flags := 2 }

/-- A MKDIR payload creating "d". -/
def c8Md : tagfs_mkdir :=
  { tagfs_relpath := "d", fc_mode := 493, fc_uid := 0, fc_gid := 0 }

/-- A two-entry log: one FILE, one MKDIR. -/
def c8Log : tagfs_log :=
  { tagfs_log_magic := TAGFS_LOG_MAGIC, tagfs_log_next_seqnum := 2,
    tagfs_log_next_index := 2, tagfs_log_last_index := 10,
    entries := fun i =>
      if i = 0 then { tagfs_log_entry_seqnum := 0,
                      payload := tagfs_log_entry_payload.tagfs_fc c8FileFc }
      else if i = 1 then { tagfs_log_entry_seqnum := 1,
                           payload := tagfs_log_entry_payload.tagfs_md c8Md }
      else { tagfs_log_entry_seqnum := 0,
             payload := tagfs_log_entry_payload.tagfs_access } }

/-- C8 witness: a concrete two-entry log replayed twice from an empty
mount — both passes return 0 and the second pass leaves the filesystem
of the first pass unchanged. -/
theorem logplay_idempotent_witness :
    (tagfs_logplay c8Log "m" false []).1 = 0 ∧
    (tagfs_logplay c8Log "m" false ((tagfs_logplay c8Log "m" false []).2.1)).1 = 0 ∧
    (tagfs_logplay c8Log "m" false ((tagfs_logplay c8Log "m" false []).2.1)).2.1 =
      (tagfs_logplay c8Log "m" false []).2.1 := by
  have h := logplay_idempotent c8Log "m" [] (by decide)
  exact ⟨h.1, h.2.1, h.2.2.1⟩

/-! ## Claim C9: logplay refuses a full log -/

/-- C9: when `next_index > last_index`, `tagfs_logplay` diagnoses the
log as empty, replays nothing (state and trace untouched except for the
diagnostic) and returns -1; replay returns 0 exactly when the log still
has at least one free slot (`next_index ≤ last_index`). -/
theorem logplay_rejects_full_log :
    ∀ (logp : tagfs_log) (mpt : String) (dry_run : Bool) (fs : FsState),
      (logp.tagfs_log_next_index > logp.tagfs_log_last_index →
        tagfs_logplay logp mpt dry_run fs = (-1, fs, [LogplayEvent.reportedLogEmpty])) ∧
      ((tagfs_logplay logp mpt dry_run fs).1 = 0 ↔
        logp.tagfs_log_next_index ≤ logp.tagfs_log_last_index) := by
  intro logp mpt dry fs
  constructor
  · intro hgt
    unfold tagfs_logplay
    rw [if_pos (by simp [tagfs_log_full]; omega)]
  · by_cases hfull : tagfs_log_full logp = true
    · have hgt : logp.tagfs_log_last_index < logp.tagfs_log_next_index := by
        simpa [tagfs_log_full] using hfull
      unfold tagfs_logplay
      rw [if_pos hfull]
      constructor
      · intro h0
        simp at h0
      · intro hle
        omega
    · have hle : logp.tagfs_log_next_index ≤ logp.tagfs_log_last_index := by
        rw [tagfs_log_full] at hfull
        simp at hfull
        omega
      unfold tagfs_logplay
      rw [if_neg hfull]
      exact ⟨fun _ => hle, fun _ => rfl⟩

/-- A log with `next_index = 5 > last_index = 4` (every slot written). -/
def c9Log : tagfs_log :=
  { tagfs_log_magic := TAGFS_LOG_MAGIC, tagfs_log_next_seqnum := 5,
    tagfs_log_next_index := 5, tagfs_log_last_index := 4,
    entries := fun _ => { tagfs_log_entry_seqnum := 0,
                          payload := tagfs_log_entry_payload.tagfs_access } }

/-- C9 witness: replay of the concrete full log returns -1 with the
"log is empty" diagnostic and touches nothing. -/
theorem logplay_rejects_full_log_witness :
    tagfs_logplay c9Log "m" false [] = (-1, [], [LogplayEvent.reportedLogEmpty]) :=
  (logplay_rejects_full_log c9Log "m" false []).1 (by decide)

/-! ## Claim C10: tagfs_dir_create with non-zero uid and gid -/

/-- C10: with both uid and gid non-zero, `tagfs_dir_create` returns -1
even though the directory is created (the `return -1` after the chown
block is unconditional); it can return 0 only when uid or gid is zero. -/
theorem dir_create_nonzero_ids_error :
    ∀ (fs : FsState) (mpt rpath : String) (mode uid gid : Nat),
      (uid ≠ 0 → gid ≠ 0 →
        (tagfs_dir_create fs mpt rpath mode uid gid).1 = -1 ∧
        (fsExists fs (mpt ++ "/" ++ rpath) = false →
          fsExists (tagfs_dir_create fs mpt rpath mode uid gid).2 (mpt ++ "/" ++ rpath)
            = true)) ∧
      ((tagfs_dir_create fs mpt rpath mode uid gid).1 = 0 → uid = 0 ∨ gid = 0) := by
  intro fs mpt rpath mode uid gid
  constructor
  · intro hu hg
    unfold tagfs_dir_create
    split_ifs with h1 h2
    · refine ⟨rfl, fun hne => ?_⟩
      rw [hne] at h1
      exact absurd h1 (by decide)
    · refine ⟨rfl, fun _ => ?_⟩
      exact fsExists_cons_self fs (mpt ++ "/" ++ rpath) FsKind.dir
    · exact absurd ⟨hu, hg⟩ h2
  · intro h0
    unfold tagfs_dir_create at h0
    split_ifs at h0 with h1 h2
    · simp at h0
    · simp at h0
    · rcases not_and_or.mp h2 with h | h
      · exact Or.inl (not_not.mp h)
      · exact Or.inr (not_not.mp h)

/-- C10 witness: creating "d" under "m" with uid = gid = 1000 on an
empty filesystem returns -1 although the directory exists afterwards. -/
theorem dir_create_nonzero_ids_error_witness :
    (tagfs_dir_create [] "m" "d" 493 1000 1000).1 = -1 ∧
    fsExists (tagfs_dir_create [] "m" "d" 493 1000 1000).2 ("m" ++ "/" ++ "d") = true := by
  have h := (dir_create_nonzero_ids_error [] "m" "d" 493 1000 1000).1
    (by decide) (by decide)
  exact ⟨h.1, h.2 (by decide)⟩
